import Mathlib

/-! RTOS error simulator (`src/main.cpp`)

A shallow embedding of the class `RTOSErrorSimulator`:

* the object's fields and the scenario operations that spawn tasks
  (`initialize`, `simulateRaceCondition`, `simulateDeadlock`,
  `simulatePriorityInversion`, `simulateStackOverflow`);
* `recursiveStackBlower` as a total function on 32-bit depths;
* the task bodies that use locks as trees of kernel calls (`Prog`), with a
  sequential lock-tracking semantics and a discrete-event timed semantics;
* `raceConditionTask` as a labelled transition system whose atomic steps are
  the reads and writes of the two static counters and the lock operations,
  interleaved by an arbitrary schedule.

Times are in milliseconds; one tick is one millisecond, so `pdMS_TO_TICKS` is
the identity.
-/

namespace RTOSErrorSimulator

/-! ## Object state and task creation -/

/-- The static task entry functions of the class. -/
inductive Entry where
  | stackHungryTask
  | recursiveStackBlower
  | useAfterFreeTask
  | bufferOverflowTask
  | badPointerTask
  | raceConditionTask
  | deadlockTask1
  | deadlockTask2
  | lowPriorityTask
  | highPriorityTask
  | mediumPriorityTask
  | infiniteLoopTask
  deriving DecidableEq, Repr

/-- The arguments of one `xTaskCreatePinnedToCore` call, with the time of the call. -/
structure TaskCreate where
  entry : Entry
  name : String
  stackDepth : Nat
  param : Nat
  priority : Nat
  core : Nat
  time : Nat
  deriving DecidableEq, Repr

/-- The private fields of `RTOSErrorSimulator` (lines 11-15). A handle or pointer is
`none` when it is null. -/
structure Simulator where
  xErrorTimer : Option Nat
  xMutex : Option Nat
  xMutexA : Option Nat
  xMutexB : Option Nat
  raceConditionEnabled : Bool
  badPointer : Option Nat
  crashCounter : Int
  deriving DecidableEq, Repr

/-- Program counter of one `raceConditionTask` instance (lines 202-230). -/
inductive PC where
  /-- line 202, the test `i < 20`, and line 203, the test of `raceConditionEnabled` -/
  | loopTest
  /-- line 205, `int temp = unsafeCounter` -/
  | readUnsafe
  /-- line 207, `unsafeCounter = temp + 1`, after the delay of line 206 -/
  | writeUnsafe
  /-- line 210, `xSemaphoreTake(sim->xMutex, portMAX_DELAY)` -/
  | take
  /-- line 211, `int temp2 = safeCounter` -/
  | readSafe
  /-- line 213, `safeCounter = temp2 + 1`, after the delay of line 212 -/
  | writeSafe
  /-- line 214, `xSemaphoreGive(sim->xMutex)` -/
  | give
  /-- lines 217-221, the periodic report -/
  | report
  /-- line 223, `vTaskDelay`, then `i++` -/
  | delay
  /-- lines 226-228, the final report -/
  | final
  /-- line 230, after `vTaskDelete(NULL)` -/
  | exited
  deriving DecidableEq, Repr

/-- The locals of one `raceConditionTask` instance. -/
structure Worker where
  pc : PC
  i : Nat
  temp : Int
  temp2 : Int
  deriving DecidableEq, Repr

/-- One line printed by `raceConditionTask`: the three values of lines 218-220 or 226-228. -/
structure Report where
  task : Nat
  isFinal : Bool
  unsafeCounter : Int
  safeCounter : Int
  difference : Int
  deriving DecidableEq, Repr

/-- The simulator object together with the part of the environment the scenario
operations act on: the two function-local statics of `raceConditionTask`, the
clock of the calling task, the log of task creations, and the live
`raceConditionTask` instances with the holder of `xMutex` among them. -/
structure System where
  sim : Simulator
  thisAddr : Nat
  unsafeCounter : Int
  safeCounter : Int
  clock : Nat
  kernelObjects : Nat
  calls : List TaskCreate
  tasks : List TaskCreate
  holder : Option Nat
  race : List Worker
  printed : List Report
  deriving DecidableEq, Repr

/-- The global `errorSimulator` (line 424) before `setup`: static storage is zeroed, the
statics of line 196-197 are 0, no task exists. -/
def errorSimulator (addr : Nat) : System :=
  { sim := { xErrorTimer := none, xMutex := none, xMutexA := none, xMutexB := none,
             raceConditionEnabled := false, badPointer := none, crashCounter := 0 }
    thisAddr := addr
    unsafeCounter := 0
    safeCounter := 0
    clock := 0
    kernelObjects := 0
    calls := []
    tasks := []
    holder := none
    race := []
    printed := [] }

/-- `xSemaphoreCreateMutex()`: a fresh non-null handle (the heap is taken to suffice). -/
def xSemaphoreCreateMutex (s : System) : Option Nat × System :=
  (some (s.kernelObjects + 1), { s with kernelObjects := s.kernelObjects + 1 })

/-- `xTimerCreate(..)`: a fresh non-null handle (the heap is taken to suffice). -/
def xTimerCreate (s : System) : Option Nat × System :=
  (some (s.kernelObjects + 1), { s with kernelObjects := s.kernelObjects + 1 })

/-- `initialize()` (lines 18-35). The timer is created and started; its callback is not
part of the model. -/
def initializeSimulator (s : System) : System :=
  let s := { s with sim := { s.sim with crashCounter := 0 } }
  let s := { s with sim := { s.sim with raceConditionEnabled := false } }
  let s := { s with sim := { s.sim with badPointer := none } }
  let (m, s) := xSemaphoreCreateMutex s
  let s := { s with sim := { s.sim with xMutex := m } }
  let (t, s) := xTimerCreate s
  let s := { s with sim := { s.sim with xErrorTimer := t } }
  s

/-- A `raceConditionTask` instance at its entry: `i = 0`, locals unset. -/
def Worker.entry : Worker := { pc := .loopTest, i := 0, temp := 0, temp2 := 0 }

/-- `xTaskCreatePinnedToCore(entry, name, stackDepth, this, priority, NULL, core)`.
`res n` is the result of the `n`-th call ever made (`true` for `pdPASS`); the call is
logged whatever its result, and the task exists only when it passed. -/
def xTaskCreatePinnedToCore (res : Nat → Bool) (entry : Entry) (name : String)
    (stackDepth priority core : Nat) (s : System) : Bool × System :=
  let ok := res s.calls.length
  let c : TaskCreate :=
    { entry := entry, name := name, stackDepth := stackDepth, param := s.thisAddr,
      priority := priority, core := core, time := s.clock }
  (ok, { s with
          calls := s.calls ++ [c]
          tasks := if ok then s.tasks ++ [c] else s.tasks
          race := if ok && decide (entry = .raceConditionTask)
                    then s.race ++ [Worker.entry] else s.race })

/-- `vTaskDelay(pdMS_TO_TICKS(ms))` in the calling task. -/
def vTaskDelay (ms : Nat) (s : System) : System :=
  { s with clock := s.clock + ms }

/-- `simulateStackOverflow()` (lines 42-66); both results are discarded. -/
def simulateStackOverflow (res : Nat → Bool) (s : System) : System :=
  let s := (xTaskCreatePinnedToCore res .stackHungryTask "StackHungry" 64 1 0 s).2
  let s := (xTaskCreatePinnedToCore res .recursiveStackBlower "StackBlower" 2048 1 1 s).2
  s

/-- `simulateRaceCondition()` (lines 176-192): the loop `for (i = 0; i < 3; i++)`; the
result of each creation is discarded. -/
def simulateRaceCondition (res : Nat → Bool) (s : System) : System :=
  let s := { s with sim := { s.sim with raceConditionEnabled := true } }
  (List.range 3).foldl
    (fun s i =>
      (xTaskCreatePinnedToCore res .raceConditionTask ("RaceTask_" ++ toString i)
        2048 2 (i % 2) s).2)
    s

/-- `simulateDeadlock()` (lines 233-238); both results are discarded. -/
def simulateDeadlock (res : Nat → Bool) (s : System) : System :=
  let s := (xTaskCreatePinnedToCore res .deadlockTask1 "Deadlock1" 2048 2 0 s).2
  let s := (xTaskCreatePinnedToCore res .deadlockTask2 "Deadlock2" 2048 2 1 s).2
  s

/-- `simulatePriorityInversion()` (lines 286-305); the three results are discarded. -/
def simulatePriorityInversion (res : Nat → Bool) (s : System) : System :=
  let s := (xTaskCreatePinnedToCore res .lowPriorityTask "LowPri" 2048 1 0 s).2
  let s := vTaskDelay 500 s
  let s := (xTaskCreatePinnedToCore res .highPriorityTask "HighPri" 2048 3 0 s).2
  let s := (xTaskCreatePinnedToCore res .mediumPriorityTask "MedPri" 2048 2 1 s).2
  s

/-! ## `recursiveStackBlower` -/

/-- What `recursiveStackBlower` prints: the two arguments of the `printf` of line 86 as
32-bit words, or the line of line 95. -/
inductive BlowerLine where
  | depth (depth used : Nat)
  | completed
  deriving DecidableEq, Repr

/-- The effect of one invocation of `recursiveStackBlower`: the number of nested
invocations it made, and its output. -/
structure Blown where
  calls : Nat
  out : List BlowerLine
  deriving DecidableEq, Repr

/-- `recursiveStackBlower(pvParameters)` (lines 81-96). `depth` is the parameter cast to
`uint32_t`; the argument of the recursive call is `depth + 1` in 32 bits. -/
def recursiveStackBlower (pvParameters : Nat) : Blown :=
  let depth := pvParameters % 2 ^ 32
  let head := if depth % 10 = 0 then [BlowerLine.depth depth (depth * 256 % 2 ^ 32)] else []
  if depth < 100 then
    let r := recursiveStackBlower ((depth + 1) % 2 ^ 32)
    { calls := r.calls + 1, out := head ++ r.out ++ [BlowerLine.completed] }
  else
    { calls := 0, out := head ++ [BlowerLine.completed] }
termination_by 100 - pvParameters % 2 ^ 32
decreasing_by
  simp_wf
  omega

/-! ## The race scenario as a transition system -/

/-- One atomic step of the `k`-th `raceConditionTask` instance. `none` when there is no
such instance, when it has exited, or when it is blocked in `xSemaphoreTake` with
`portMAX_DELAY` on a held lock. The delays of lines 206, 212 and 223 are the points
where other instances may run: they separate the steps and have no effect of their own.
The counters are `int`; in the runs considered they stay below 2^31, so the sums are
exact. -/
def raceStep (s : System) (k : Nat) : Option System :=
  match s.race[k]? with
  | none => none
  | some w =>
    let put (w1 : Worker) (s1 : System) : System := { s1 with race := s1.race.set k w1 }
    match w.pc with
    | .loopTest =>
        if w.i < 20 then
          if s.sim.raceConditionEnabled then some (put { w with pc := .readUnsafe } s)
          else some (put { w with pc := .delay } s)
        else some (put { w with pc := .final } s)
    | .readUnsafe => some (put { w with temp := s.unsafeCounter, pc := .writeUnsafe } s)
    | .writeUnsafe => some (put { w with pc := .take } { s with unsafeCounter := w.temp + 1 })
    | .take =>
        match s.holder with
        | none => some (put { w with pc := .readSafe } { s with holder := some k })
        | some _ => none
    | .readSafe => some (put { w with temp2 := s.safeCounter, pc := .writeSafe } s)
    | .writeSafe => some (put { w with pc := .give } { s with safeCounter := w.temp2 + 1 })
    | .give =>
        some (put { w with pc := .report }
          { s with holder := if s.holder = some k then none else s.holder })
    | .report =>
        let line : Report :=
          { task := k, isFinal := false, unsafeCounter := s.unsafeCounter,
            safeCounter := s.safeCounter, difference := s.safeCounter - s.unsafeCounter }
        some (put { w with pc := .delay }
          (if w.i % 5 = 0 then { s with printed := s.printed ++ [line] } else s))
    | .delay => some (put { w with i := w.i + 1, pc := .loopTest } s)
    | .final =>
        let line : Report :=
          { task := k, isFinal := true, unsafeCounter := s.unsafeCounter,
            safeCounter := s.safeCounter, difference := s.safeCounter - s.unsafeCounter }
        some (put { w with pc := .exited } { s with printed := s.printed ++ [line] })
    | .exited => none

/-- An interleaving: the instances named by the schedule take one step each, in order.
`none` when the schedule names an instance that cannot step. -/
def runSchedule (s : System) : List Nat → Option System
  | [] => some s
  | k :: ks => (raceStep s k).bind fun s1 => runSchedule s1 ks

/-- Every `raceConditionTask` instance has passed `vTaskDelete(NULL)`. -/
def allExited (s : System) : Bool :=
  s.race.all fun w => decide (w.pc = .exited)

/-- The system once `setup` has run `initialize()`, for the object at address `addr`. -/
def booted (addr : Nat) : System :=
  initializeSimulator (errorSimulator addr)

/-- The result of every task creation when none fails. -/
def allPass : Nat → Bool := fun _ => true

/-- The schedule in which instance `k` runs alone from entry to exit: the nine steps
`loopTest .. delay` of each of the 20 iterations, then `loopTest` and `final`. -/
def soloSchedule (k : Nat) : List Nat :=
  List.replicate (20 * 9 + 2) k

/-! ## Task bodies as trees of kernel calls -/

/-- The three lock handles of the object. -/
inductive Mutex where
  | xMutex
  | xMutexA
  | xMutexB
  deriving DecidableEq, Repr

/-- A task body as the tree of the kernel calls it makes; a continuation takes the
value the call returns. A timeout of `none` is `portMAX_DELAY`. -/
inductive Prog where
  | vTaskDelete : Prog
  | vTaskDelay (ms : Nat) (k : Prog) : Prog
  | xSemaphoreTake (m : Mutex) (timeout : Option Nat) (k : Bool → Prog) : Prog
  | xSemaphoreGive (m : Mutex) (k : Prog) : Prog
  | esp_timer_get_time (k : Int → Prog) : Prog
  | print (fmt : String) (args : List Int) (k : Prog) : Prog

/-- The iterations `i, i+1, ..` of a counted loop, `n` of them, followed by `k`. -/
def forFrom (body : Nat → Prog → Prog) (k : Prog) : Nat → Nat → Prog
  | 0, _ => k
  | n + 1, i => body i (forFrom body k n (i + 1))

/-- The loop `for (int i = 0; i < n; i++) body`, followed by `k`. -/
def forLoop (n : Nat) (body : Nat → Prog → Prog) (k : Prog) : Prog :=
  forFrom body k n 0

/-- `deadlockTask1` (lines 240-261). -/
def deadlockTask1 : Prog :=
  .print "Deadlock1: Attempting to take Mutex A then B..." [] <|
  .xSemaphoreTake .xMutexA none fun gotA =>
    if gotA then
      .print "Deadlock1: Got Mutex A, waiting then taking Mutex B..." [] <|
      .vTaskDelay 100 <|
      .print "Deadlock1: Trying to take Mutex B (WILL DEADLOCK)..." [] <|
      .xSemaphoreTake .xMutexB (some 5000) fun gotB =>
        if gotB then
          .print "Deadlock1: Got both mutexes (unexpected!)" [] <|
          .xSemaphoreGive .xMutexB <|
          .xSemaphoreGive .xMutexA <|
          .vTaskDelete
        else
          .print "Deadlock1: Failed to get Mutex B (deadlock avoided?)" [] <|
          .xSemaphoreGive .xMutexA <|
          .vTaskDelete
    else
      .vTaskDelete

/-- `deadlockTask2` (lines 263-284). -/
def deadlockTask2 : Prog :=
  .print "Deadlock2: Attempting to take Mutex B then A..." [] <|
  .xSemaphoreTake .xMutexB none fun gotB =>
    if gotB then
      .print "Deadlock2: Got Mutex B, waiting then taking Mutex A..." [] <|
      .vTaskDelay 150 <|
      .print "Deadlock2: Trying to take Mutex A (WILL DEADLOCK)..." [] <|
      .xSemaphoreTake .xMutexA (some 5000) fun gotA =>
        if gotA then
          .print "Deadlock2: Got both mutexes (unexpected!)" [] <|
          .xSemaphoreGive .xMutexA <|
          .xSemaphoreGive .xMutexB <|
          .vTaskDelete
        else
          .print "Deadlock2: Failed to get Mutex A (deadlock avoided?)" [] <|
          .xSemaphoreGive .xMutexB <|
          .vTaskDelete
    else
      .vTaskDelete

/-- `lowPriorityTask` (lines 307-322). -/
def lowPriorityTask : Prog :=
  .print "LowPri: Taking mutex..." [] <|
  .xSemaphoreTake .xMutex none fun got =>
    if got then
      .print "LowPri: Got mutex, doing long operation..." [] <|
      forLoop 10 (fun i k => .print "LowPri: Working %d/10" [(i : Int) + 1] (.vTaskDelay 1000 k)) <|
      .print "LowPri: Releasing mutex" [] <|
      .xSemaphoreGive .xMutex <|
      .vTaskDelete
    else
      .vTaskDelete

/-- `highPriorityTask` (lines 324-340). `esp_timer_get_time` is in microseconds and the
wait time is the 64-bit quotient of line 331. -/
def highPriorityTask : Prog :=
  .print "HighPri: Waiting for mutex (should get it immediately if no inversion)..." [] <|
  .esp_timer_get_time fun startTime =>
  .xSemaphoreTake .xMutex (some 15000) fun got =>
    if got then
      .esp_timer_get_time fun t =>
      let waitTime := Int.tdiv (t - startTime) 1000
      .print "HighPri: Got mutex after %lld ms (inversion occurred if >1000ms)" [waitTime] <|
      .vTaskDelay 100 <|
      .xSemaphoreGive .xMutex <|
      .vTaskDelete
    else
      .print "HighPri: TIMEOUT - never got mutex!" [] <|
      .vTaskDelete

/-- `mediumPriorityTask` (lines 342-353). -/
def mediumPriorityTask : Prog :=
  .print "MedPri: Starting CPU-intensive work..." [] <|
  forLoop 8 (fun i k => .print "MedPri: Busy %d/8" [(i : Int) + 1] (.vTaskDelay 1000 k)) <|
  .print "MedPri: Done" [] <|
  .vTaskDelete

/-- The kernel calls of `raceConditionTask` (lines 202-230) other than its output: the
delays and the lock operations, the accesses to the two counters left out (they are the
subject of `raceStep`). -/
def raceConditionTask (raceConditionEnabled : Bool) : Prog :=
  forLoop 20
    (fun _ k =>
      if raceConditionEnabled then
        .vTaskDelay 1 <|
        .xSemaphoreTake .xMutex none fun got =>
          if got then
            .vTaskDelay 1 <|
            .xSemaphoreGive .xMutex <|
            .vTaskDelay 10 k
          else
            .vTaskDelay 10 k
      else
        .vTaskDelay 10 k)
    .vTaskDelete

/-- The body of each task entry that takes part in a lock scenario. -/
def bodyOf : Entry → Option Prog
  | .raceConditionTask => some (raceConditionTask true)
  | .deadlockTask1 => some deadlockTask1
  | .deadlockTask2 => some deadlockTask2
  | .lowPriorityTask => some lowPriorityTask
  | .highPriorityTask => some highPriorityTask
  | .mediumPriorityTask => some mediumPriorityTask
  | _ => none

/-! ### One task on its own: the locks it holds -/

/-- The lock bookkeeping of one task: the locks it holds, the locks it has given in
order, whether it gave a lock it did not hold, and how many `xSemaphoreTake` and
`esp_timer_get_time` calls it has made. -/
structure Locks where
  held : List Mutex
  gave : List Mutex
  badGive : Bool
  takes : Nat
  reads : Nat
  deriving DecidableEq, Repr

/-- A task that holds nothing and has made no call. -/
def Locks.start : Locks :=
  { held := [], gave := [], badGive := false, takes := 0, reads := 0 }

/-- Runs a task body to its `vTaskDelete(NULL)`. The `n`-th `xSemaphoreTake` returns
`outcome n` and the `n`-th `esp_timer_get_time` returns `clock n`. -/
def runLocks (outcome : Nat → Bool) (clock : Nat → Int) : Prog → Locks → Locks
  | .vTaskDelete, l => l
  | .vTaskDelay _ k, l => runLocks outcome clock k l
  | .xSemaphoreTake m _ k, l =>
      runLocks outcome clock (k (outcome l.takes))
        { l with held := if outcome l.takes then m :: l.held else l.held
                 takes := l.takes + 1 }
  | .xSemaphoreGive m k, l =>
      runLocks outcome clock k
        { l with held := l.held.erase m
                 gave := l.gave ++ [m]
                 badGive := l.badGive || !(l.held.contains m) }
  | .esp_timer_get_time k, l =>
      runLocks outcome clock (k (clock l.reads)) { l with reads := l.reads + 1 }
  | .print _ _ k, l => runLocks outcome clock k l

/-! ### The ideal timed model

Delays and timeouts are exact and a task takes no time between two kernel calls. A lock
given at some time is free for a task that waits for it at that time. -/

/-- What the timed model records about a task. -/
inductive Event where
  | took (m : Mutex)
  | timedOut (m : Mutex)
  | gave (m : Mutex)
  | badGive (m : Mutex)
  | printed (fmt : String) (args : List Int)
  | exited
  deriving DecidableEq, Repr

/-- A task in the timed model: the rest of its body, its priority, and the time at which
it reached the call it is at. -/
structure Task where
  prog : Prog
  priority : Nat
  wake : Nat
  exited : Bool

/-- The timed model: the time, the owner of each lock (`none` when free), the tasks, and
the record of what happened, each entry with its time and the index of its task. -/
structure Kernel where
  now : Nat
  owner : Mutex → Option Nat
  tasks : List Task
  log : List (Nat × Nat × Event)

/-- The time at which a task makes its next move, `none` if it never does. A task at
`xSemaphoreTake` moves as soon as the lock is free, else when its timeout expires; with
`portMAX_DELAY` on a held lock it does not move. Any other call happens on arrival. -/
def eventTime (K : Kernel) (t : Task) : Option Nat :=
  if t.exited then none
  else
    match t.prog with
    | .xSemaphoreTake m timeout _ =>
        match K.owner m with
        | none => some (max t.wake K.now)
        | some _ => timeout.map fun ticks => t.wake + ticks
    | _ => some (max t.wake K.now)

/-- The task that moves next, `(time, priority, index)`: the earliest move, and among
simultaneous moves the higher priority, then the lower index. -/
def nextEvent (K : Kernel) : Option (Nat × Nat × Nat) :=
  K.tasks.enum.foldl
    (fun best it =>
      match eventTime K it.2 with
      | none => best
      | some time =>
          match best with
          | none => some (time, it.2.priority, it.1)
          | some b =>
              if time < b.1 || (time = b.1 && b.2.1 < it.2.priority)
              then some (time, it.2.priority, it.1) else some b)
    none

/-- The move of task `i` at time `time`: the call it is at takes effect and the task
advances to its next call. -/
def exec (K : Kernel) (i time : Nat) : Kernel :=
  match K.tasks[i]? with
  | none => K
  | some t =>
    let K := { K with now := time }
    let put (t1 : Task) (K1 : Kernel) : Kernel := { K1 with tasks := K1.tasks.set i t1 }
    let note (e : Event) (K1 : Kernel) : Kernel := { K1 with log := K1.log ++ [(time, i, e)] }
    match t.prog with
    | .vTaskDelete => put { t with exited := true, wake := time } (note .exited K)
    | .vTaskDelay ms k => put { t with prog := k, wake := time + ms } K
    | .xSemaphoreTake m _ k =>
        match K.owner m with
        | none =>
            put { t with prog := k true, wake := time }
              (note (.took m) { K with owner := fun x => if x = m then some i else K.owner x })
        | some _ => put { t with prog := k false, wake := time } (note (.timedOut m) K)
    | .xSemaphoreGive m k =>
        if K.owner m = some i then
          put { t with prog := k, wake := time }
            (note (.gave m) { K with owner := fun x => if x = m then none else K.owner x })
        else put { t with prog := k, wake := time } (note (.badGive m) K)
    | .esp_timer_get_time k => put { t with prog := k ((time : Int) * 1000), wake := time } K
    | .print fmt args k => put { t with prog := k, wake := time } (note (.printed fmt args) K)

/-- At most `fuel` moves of the timed model; it stops when no task can move. -/
def simulate : Nat → Kernel → Kernel
  | 0, K => K
  | fuel + 1, K =>
      match nextEvent K with
      | none => K
      | some (time, _, i) => simulate fuel (exec K i time)

/-- The timed model at the start of a scenario: the created tasks that have a body,
each ready from the time of its creation, every lock existing and free. -/
def boot (tasks : List TaskCreate) : Kernel :=
  { now := 0
    owner := fun _ => none
    tasks := tasks.filterMap fun c =>
      (bodyOf c.entry).map fun p =>
        { prog := p, priority := c.priority, wake := c.time, exited := false }
    log := [] }

/-- What the record says about locks and exits, without the printed lines. -/
def lockLog (K : Kernel) : List (Nat × Nat × Event) :=
  K.log.filter fun e =>
    match e.2.2 with
    | .printed _ _ => false
    | _ => true

/-- The values printed by task `i` with format `fmt`, with their times. -/
def printedBy (K : Kernel) (i : Nat) (fmt : String) : List (Nat × List Int) :=
  K.log.filterMap fun e =>
    match e.2.2 with
    | .printed f args => if e.2.1 = i ∧ f = fmt then some (e.1, args) else none
    | _ => none

/-! ### Constants of a task body -/

/-- The lock and timeout of the first `xSemaphoreTake` a body reaches. -/
def firstTake : Prog → Option (Mutex × Option Nat)
  | .vTaskDelete => none
  | .vTaskDelay _ k => firstTake k
  | .xSemaphoreTake m timeout _ => some (m, timeout)
  | .xSemaphoreGive _ k => firstTake k
  | .esp_timer_get_time k => firstTake (k 0)
  | .print _ _ k => firstTake k

/-- The sum of the delays from here to the give of `m`, every take on the way succeeding. -/
def delayToGive (m : Mutex) : Prog → Nat
  | .vTaskDelete => 0
  | .vTaskDelay ms k => ms + delayToGive m k
  | .xSemaphoreTake _ _ k => delayToGive m (k true)
  | .xSemaphoreGive x k => if x = m then 0 else delayToGive m k
  | .esp_timer_get_time k => delayToGive m (k 0)
  | .print _ _ k => delayToGive m k

/-- The time a body holds the first lock it takes when nothing delays it: the sum of its
own delays between that take and the give of the same lock. -/
def holdTime : Prog → Nat
  | .vTaskDelete => 0
  | .vTaskDelay _ k => holdTime k
  | .xSemaphoreTake m _ k => delayToGive m (k true)
  | .xSemaphoreGive _ k => holdTime k
  | .esp_timer_get_time k => holdTime (k 0)
  | .print _ _ k => holdTime k

/-! ### Measures and invariant of the race scenario -/

/-- The number of times an instance has executed line 207. -/
def Worker.unsafeDone (w : Worker) : Nat :=
  match w.pc with
  | .take | .readSafe | .writeSafe | .give | .report | .delay => w.i + 1
  | _ => w.i

/-- The number of times an instance has executed line 213. -/
def Worker.safeDone (w : Worker) : Nat :=
  match w.pc with
  | .give | .report | .delay => w.i + 1
  | _ => w.i

/-- An instance is between its `xSemaphoreTake` and its `xSemaphoreGive`. -/
def PC.inCS : PC → Bool
  | .readSafe | .writeSafe | .give => true
  | _ => false

/-- The range of the loop counter at each program point. -/
def Worker.inRange (w : Worker) : Prop :=
  match w.pc with
  | .loopTest => w.i ≤ 20
  | .final | .exited => w.i = 20
  | _ => w.i < 20

/-- The number of steps an instance has left before it has exited, when the flag is
set: nine per iteration, then the last test of the loop and the final report. -/
def Worker.remaining (w : Worker) : Nat :=
  match w.pc with
  | .loopTest => (20 - w.i) * 9 + 2
  | .readUnsafe => (20 - w.i) * 9 + 1
  | .writeUnsafe => (20 - w.i) * 9
  | .take => (20 - w.i) * 9 - 1
  | .readSafe => (20 - w.i) * 9 - 2
  | .writeSafe => (20 - w.i) * 9 - 3
  | .give => (20 - w.i) * 9 - 4
  | .report => (20 - w.i) * 9 - 5
  | .delay => (20 - w.i) * 9 - 6
  | .final => 1
  | .exited => 0

/-- The sum of a measure over the instances. -/
def total (f : Worker → Nat) (ws : List Worker) : Nat :=
  (ws.map f).sum

/-- The invariant of the race scenario, relative to the values `cs`, `cu` the counters
had before any of the present instances ran. -/
structure RaceInv (cs cu : Int) (s : System) : Prop where
  enabled : s.sim.raceConditionEnabled = true
  range : ∀ (j : Nat) (w : Worker), s.race[j]? = some w → w.inRange
  excl : ∀ (j : Nat) (w : Worker), s.race[j]? = some w → w.pc.inCS = true → s.holder = some j
  fresh : ∀ (j : Nat) (w : Worker), s.race[j]? = some w → w.pc = .writeSafe →
    w.temp2 = s.safeCounter
  safeEq : s.safeCounter = cs + total Worker.safeDone s.race
  unsafeLe : s.unsafeCounter ≤ cu + total Worker.unsafeDone s.race
  tempLe : ∀ (j : Nat) (w : Worker), s.race[j]? = some w → w.pc = .writeUnsafe →
    w.temp ≤ cu + total Worker.unsafeDone s.race
  printedGe : ∀ r ∈ s.printed, cs - cu + 1 ≤ r.difference + s.race.length
  holderCS : ∀ (j : Nat), s.holder = some j → ∃ w, s.race[j]? = some w ∧ w.pc.inCS = true

/-- The state a schedule leads to, the state itself when the schedule cannot be run. -/
def stateAfter (s : System) (sched : List Nat) : System :=
  (runSchedule s sched).getD s

/-- The schedule in which the three instances `k, k+1, k+2` run one after the other. -/
def sequentialSchedule (k : Nat) : List Nat :=
  soloSchedule k ++ soloSchedule (k + 1) ++ soloSchedule (k + 2)

/-- The results of task creation when only the first call fails. -/
def failFirst : Nat → Bool := fun n => decide (n ≠ 0)

end RTOSErrorSimulator



namespace RTOSErrorSimulator

/-! ## Elementary facts about lists of instances -/

theorem get?_set_cases (ws : List Worker) (k j : Nat) (w1 w : Worker)
    (h : (ws.set k w1)[j]? = some w) :
    (j = k ∧ w = w1) ∨ (j ≠ k ∧ ws[j]? = some w) := by
  induction ws generalizing k j with
  | nil => simp at h
  | cons a t ih =>
    cases k with
    | zero =>
      cases j with
      | zero => left; simp at h; exact ⟨rfl, h.symm⟩
      | succ j => right; simp at h; simpa using h
    | succ k =>
      cases j with
      | zero => right; simp at h; simpa using h
      | succ j =>
        simp at h
        rcases ih k j (by simpa using h) with ⟨rfl, hw⟩ | ⟨hne, hw⟩
        · left; exact ⟨rfl, hw⟩
        · right; exact ⟨by omega, by simpa using hw⟩

theorem get?_set_self (ws : List Worker) (k : Nat) (w w1 : Worker)
    (h : ws[k]? = some w) : (ws.set k w1)[k]? = some w1 := by
  induction ws generalizing k with
  | nil => simp at h
  | cons a t ih =>
    cases k with
    | zero => simp
    | succ k => simpa using ih k (by simpa using h)

theorem get?_set_ne (ws : List Worker) (k j : Nat) (w1 : Worker) (hne : j ≠ k) :
    (ws.set k w1)[j]? = ws[j]? := by
  induction ws generalizing k j with
  | nil => simp
  | cons a t ih =>
    cases k with
    | zero =>
      cases j with
      | zero => exact absurd rfl hne
      | succ j => simp
    | succ k =>
      cases j with
      | zero => simp
      | succ j => simpa using ih k j (by omega)

theorem total_set (f : Worker → Nat) (ws : List Worker) (k : Nat) (w w1 : Worker)
    (h : ws[k]? = some w) :
    total f (ws.set k w1) + f w = total f ws + f w1 := by
  induction ws generalizing k with
  | nil => simp at h
  | cons a t ih =>
    cases k with
    | zero =>
      simp at h
      subst h
      simp [total]
      omega
    | succ k =>
      have := ih k (by simpa using h)
      simp [total] at this ⊢
      omega

theorem length_set_race (ws : List Worker) (k : Nat) (w1 : Worker) :
    (ws.set k w1).length = ws.length := by
  simp

/-! ## The invariant of the race scenario is preserved -/

/-- The invariant after instance `k` moves from `w` to `w1`, from what the move does to
the shared state. -/
theorem RaceInv.update {cs cu : Int} {s s1 : System} {k : Nat} {w w1 : Worker}
    (hinv : RaceInv cs cu s) (hw : s.race[k]? = some w)
    (hrace : s1.race = s.race.set k w1)
    (hsim : s1.sim = s.sim)
    (hrange : w1.inRange)
    (hexclNew : w1.pc.inCS = true → s1.holder = some k)
    (hexclOld : ∀ j wj, j ≠ k → s.race[j]? = some wj → wj.pc.inCS = true →
      s1.holder = some j)
    (hfreshNew : w1.pc = .writeSafe → w1.temp2 = s1.safeCounter)
    (hfreshOld : ∀ j wj, j ≠ k → s.race[j]? = some wj → wj.pc = .writeSafe →
      wj.temp2 = s1.safeCounter)
    (hsafe : s1.safeCounter + w.safeDone = s.safeCounter + w1.safeDone)
    (hmono : w.unsafeDone ≤ w1.unsafeDone)
    (hcount : s1.unsafeCounter + w.unsafeDone ≤
      cu + total Worker.unsafeDone s.race + w1.unsafeDone)
    (htempNew : w1.pc = .writeUnsafe →
      w1.temp + w.unsafeDone ≤ cu + total Worker.unsafeDone s.race + w1.unsafeDone)
    (hprinted : ∀ r ∈ s1.printed,
      r ∈ s.printed ∨ cs - cu + 1 ≤ r.difference + s.race.length)
    (hholder : ∀ j, s1.holder = some j →
      (j = k ∧ w1.pc.inCS = true) ∨ (j ≠ k ∧ s.holder = some j)) :
    RaceInv cs cu s1 := by
  have hS := total_set Worker.safeDone s.race k w w1 hw
  have hU := total_set Worker.unsafeDone s.race k w w1 hw
  have hsafeEq := hinv.safeEq
  refine ⟨?_, ?_, ?_, ?_, ?_, ?_, ?_, ?_, ?_⟩
  · rw [hsim]; exact hinv.enabled
  · intro j wj hj
    rw [hrace] at hj
    rcases get?_set_cases _ _ _ _ _ hj with ⟨_, rfl⟩ | ⟨_, hj1⟩
    · exact hrange
    · exact hinv.range j wj hj1
  · intro j wj hj hcs
    rw [hrace] at hj
    rcases get?_set_cases _ _ _ _ _ hj with ⟨rfl, rfl⟩ | ⟨hne, hj1⟩
    · exact hexclNew hcs
    · exact hexclOld j wj hne hj1 hcs
  · intro j wj hj hpc
    rw [hrace] at hj
    rcases get?_set_cases _ _ _ _ _ hj with ⟨rfl, rfl⟩ | ⟨hne, hj1⟩
    · exact hfreshNew hpc
    · exact hfreshOld j wj hne hj1 hpc
  · rw [hrace]
    omega
  · rw [hrace]
    omega
  · intro j wj hj hpc
    rw [hrace] at hj ⊢
    rcases get?_set_cases _ _ _ _ _ hj with ⟨rfl, rfl⟩ | ⟨hne, hj1⟩
    · have := htempNew hpc
      omega
    · have := hinv.tempLe j wj hj1 hpc
      omega
  · intro r hr
    rw [hrace, length_set_race]
    rcases hprinted r hr with h | h
    · exact hinv.printedGe r h
    · exact h
  · intro j hj
    rw [hrace]
    rcases hholder j hj with ⟨rfl, hcs⟩ | ⟨hne, hold⟩
    · exact ⟨w1, get?_set_self _ _ _ _ hw, hcs⟩
    · obtain ⟨wj, hwj, hcs⟩ := hinv.holderCS j hold
      exact ⟨wj, by rw [get?_set_ne _ _ _ _ hne]; exact hwj, hcs⟩

theorem unsafeDone_le_succ (w : Worker) : w.unsafeDone ≤ w.safeDone + 1 := by
  rcases w with ⟨pc, i, t, t2⟩
  cases pc <;> simp [Worker.unsafeDone, Worker.safeDone]

theorem safeDone_le (w : Worker) : w.safeDone ≤ w.unsafeDone := by
  rcases w with ⟨pc, i, t, t2⟩
  cases pc <;> simp [Worker.unsafeDone, Worker.safeDone]

/-- Each instance is at most one unsafe increment ahead of its safe increments. -/
theorem total_unsafeDone_le (ws : List Worker) :
    total Worker.unsafeDone ws ≤ total Worker.safeDone ws + ws.length := by
  induction ws with
  | nil => simp [total]
  | cons a t ih =>
    have := unsafeDone_le_succ a
    simp [total] at ih ⊢
    omega

theorem total_safeDone_le (ws : List Worker) :
    total Worker.safeDone ws ≤ total Worker.unsafeDone ws := by
  induction ws with
  | nil => simp [total]
  | cons a t ih =>
    have := safeDone_le a
    simp [total] at ih ⊢
    omega

/-- An instance that has done as many safe as unsafe increments leaves room for one. -/
theorem total_unsafeDone_lt (ws : List Worker) (k : Nat) (w : Worker)
    (h : ws[k]? = some w) (he : w.unsafeDone = w.safeDone) :
    total Worker.unsafeDone ws + 1 ≤ total Worker.safeDone ws + ws.length := by
  induction ws generalizing k with
  | nil => simp at h
  | cons a t ih =>
    cases k with
    | zero =>
      simp at h
      subst h
      have := total_unsafeDone_le t
      simp [total] at this ⊢
      omega
    | succ k =>
      have := ih k (by simpa using h)
      have := unsafeDone_le_succ a
      simp [total] at * 
      omega

/-- The holder of the lock is between its take and its give. -/
theorem RaceInv.holder_self {cs cu : Int} {s : System} {k : Nat} {w : Worker}
    (hinv : RaceInv cs cu s) (hw : s.race[k]? = some w) (hh : s.holder = some k) :
    w.pc.inCS = true := by
  obtain ⟨w1, hw1, hcs⟩ := hinv.holderCS k hh
  rw [hw] at hw1
  cases hw1
  exact hcs

/-- One step of any instance preserves the invariant. -/
theorem raceStep_inv {cs cu : Int} {s s1 : System} {k : Nat}
    (hinv : RaceInv cs cu s) (h : raceStep s k = some s1) : RaceInv cs cu s1 := by
  unfold raceStep at h
  cases hw : s.race[k]? with
  | none => simp [hw] at h
  | some w =>
    have hen := hinv.enabled
    have hrg := hinv.range k w hw
    have hex := hinv.excl k w hw
    have hfr := hinv.fresh k w hw
    have htl := hinv.tempLe k w hw
    have hsafeEq := hinv.safeEq
    have hunsafeLe := hinv.unsafeLe
    rcases w with ⟨pc, i, t, t2⟩
    simp only [hw] at h
    cases pc
    case loopTest =>
      simp only [hen, if_true] at h
      simp only [Worker.inRange] at hrg
      by_cases hi : i < 20
      · simp only [hi, if_true, Option.some.injEq] at h
        subst h
        refine hinv.update hw rfl rfl ?_ ?_ ?_ ?_ ?_ ?_ ?_ ?_ ?_ ?_ ?_
        · simpa [Worker.inRange] using hi
        · simp [PC.inCS]
        · intro j wj _ hj hcs; exact hinv.excl j wj hj hcs
        · simp
        · intro j wj _ hj hpc; exact hinv.fresh j wj hj hpc
        · simp [Worker.safeDone]
        · simp [Worker.unsafeDone]
        · simp [Worker.unsafeDone]; omega
        · simp
        · intro r hr; exact Or.inl hr
        · intro j hj
          by_cases hjk : j = k
          · subst hjk
            have hcs := hinv.holder_self hw hj
            simp [PC.inCS] at hcs
          · exact Or.inr ⟨hjk, hj⟩
      · simp only [hi, if_false, Option.some.injEq] at h
        subst h
        refine hinv.update hw rfl rfl ?_ ?_ ?_ ?_ ?_ ?_ ?_ ?_ ?_ ?_ ?_
        · simp [Worker.inRange]; omega
        · simp [PC.inCS]
        · intro j wj _ hj hcs; exact hinv.excl j wj hj hcs
        · simp
        · intro j wj _ hj hpc; exact hinv.fresh j wj hj hpc
        · simp [Worker.safeDone]
        · simp [Worker.unsafeDone]
        · simp [Worker.unsafeDone]; omega
        · simp
        · intro r hr; exact Or.inl hr
        · intro j hj
          by_cases hjk : j = k
          · subst hjk
            have hcs := hinv.holder_self hw hj
            simp [PC.inCS] at hcs
          · exact Or.inr ⟨hjk, hj⟩
    case readUnsafe =>
      simp only [Option.some.injEq] at h
      subst h
      refine hinv.update hw rfl rfl ?_ ?_ ?_ ?_ ?_ ?_ ?_ ?_ ?_ ?_ ?_
      · simpa [Worker.inRange] using hrg
      · simp [PC.inCS]
      · intro j wj _ hj hcs; exact hinv.excl j wj hj hcs
      · simp
      · intro j wj _ hj hpc; exact hinv.fresh j wj hj hpc
      · simp [Worker.safeDone]
      · simp [Worker.unsafeDone]
      · simp [Worker.unsafeDone]; omega
      · simp [Worker.unsafeDone]; omega
      · intro r hr; exact Or.inl hr
      · intro j hj
        by_cases hjk : j = k
        · subst hjk
          have hcs := hinv.holder_self hw hj
          simp [PC.inCS] at hcs
        · exact Or.inr ⟨hjk, hj⟩
    case writeUnsafe =>
      simp only [Option.some.injEq] at h
      subst h
      have htl1 := htl rfl
      refine hinv.update hw rfl rfl ?_ ?_ ?_ ?_ ?_ ?_ ?_ ?_ ?_ ?_ ?_
      · simpa [Worker.inRange] using hrg
      · simp [PC.inCS]
      · intro j wj _ hj hcs; exact hinv.excl j wj hj hcs
      · simp
      · intro j wj _ hj hpc; exact hinv.fresh j wj hj hpc
      · simp [Worker.safeDone]
      · simp [Worker.unsafeDone]
      · simp [Worker.unsafeDone] at htl1 ⊢; omega
      · simp
      · intro r hr; exact Or.inl hr
      · intro j hj
        by_cases hjk : j = k
        · subst hjk
          have hcs := hinv.holder_self hw hj
          simp [PC.inCS] at hcs
        · exact Or.inr ⟨hjk, hj⟩
    case take =>
      cases hh : s.holder with
      | some x => simp [hh] at h
      | none =>
        simp only [hh, Option.some.injEq] at h
        subst h
        refine hinv.update hw rfl rfl ?_ ?_ ?_ ?_ ?_ ?_ ?_ ?_ ?_ ?_ ?_
        · simpa [Worker.inRange] using hrg
        · simp
        · intro j wj _ hj hcs
          have := hinv.excl j wj hj hcs
          simp [hh] at this
        · simp
        · intro j wj _ hj hpc; exact hinv.fresh j wj hj hpc
        · simp [Worker.safeDone]
        · simp [Worker.unsafeDone]
        · simp [Worker.unsafeDone]; omega
        · simp
        · intro r hr; exact Or.inl hr
        · intro j hj
          simp only [Option.some.injEq] at hj
          exact Or.inl ⟨hj.symm, by simp [PC.inCS]⟩
    case readSafe =>
      simp only [Option.some.injEq] at h
      subst h
      have hk := hex (by simp [PC.inCS])
      refine hinv.update hw rfl rfl ?_ ?_ ?_ ?_ ?_ ?_ ?_ ?_ ?_ ?_ ?_
      · simpa [Worker.inRange] using hrg
      · intro _; exact hk
      · intro j wj _ hj hcs; exact hinv.excl j wj hj hcs
      · simp
      · intro j wj _ hj hpc; exact hinv.fresh j wj hj hpc
      · simp [Worker.safeDone]
      · simp [Worker.unsafeDone]
      · simp [Worker.unsafeDone]; omega
      · simp
      · intro r hr; exact Or.inl hr
      · intro j hj
        by_cases hjk : j = k
        · exact Or.inl ⟨hjk, by simp [PC.inCS]⟩
        · exact Or.inr ⟨hjk, hj⟩
    case writeSafe =>
      simp only [Option.some.injEq] at h
      subst h
      have hk := hex (by simp [PC.inCS])
      have hfr1 := hfr rfl
      simp only at hfr1
      refine hinv.update hw rfl rfl ?_ ?_ ?_ ?_ ?_ ?_ ?_ ?_ ?_ ?_ ?_
      · simpa [Worker.inRange] using hrg
      · intro _; exact hk
      · intro j wj _ hj hcs; exact hinv.excl j wj hj hcs
      · simp
      · intro j wj hne hj hpc
        have := hinv.excl j wj hj (by simp [hpc, PC.inCS])
        rw [hk] at this
        exact absurd (Option.some.inj this).symm hne
      · simp [Worker.safeDone, hfr1]; omega
      · simp [Worker.unsafeDone]
      · simp [Worker.unsafeDone]; omega
      · simp
      · intro r hr; exact Or.inl hr
      · intro j hj
        by_cases hjk : j = k
        · exact Or.inl ⟨hjk, by simp [PC.inCS]⟩
        · exact Or.inr ⟨hjk, hj⟩
    case give =>
      simp only [Option.some.injEq] at h
      subst h
      have hk := hex (by simp [PC.inCS])
      refine hinv.update hw rfl rfl ?_ ?_ ?_ ?_ ?_ ?_ ?_ ?_ ?_ ?_ ?_
      · simpa [Worker.inRange] using hrg
      · simp [PC.inCS]
      · intro j wj hne hj hcs
        have := hinv.excl j wj hj hcs
        rw [hk] at this
        exact absurd (Option.some.inj this).symm hne
      · simp
      · intro j wj _ hj hpc; exact hinv.fresh j wj hj hpc
      · simp [Worker.safeDone]
      · simp [Worker.unsafeDone]
      · simp [Worker.unsafeDone]; omega
      · simp
      · intro r hr; exact Or.inl hr
      · intro j hj
        simp [hk] at hj
    case report =>
      have hlt := total_unsafeDone_lt s.race k _ hw (by simp [Worker.unsafeDone, Worker.safeDone])
      by_cases h5 : i % 5 = 0
      · simp only [h5, if_true, Option.some.injEq] at h
        subst h
        refine hinv.update hw rfl rfl ?_ ?_ ?_ ?_ ?_ ?_ ?_ ?_ ?_ ?_ ?_
        · simpa [Worker.inRange] using hrg
        · simp [PC.inCS]
        · intro j wj _ hj hcs; exact hinv.excl j wj hj hcs
        · simp
        · intro j wj _ hj hpc; exact hinv.fresh j wj hj hpc
        · simp [Worker.safeDone]
        · simp [Worker.unsafeDone]
        · simp [Worker.unsafeDone]; omega
        · simp
        · intro r hr
          simp only [List.mem_append, List.mem_singleton] at hr
          rcases hr with hr | rfl
          · exact Or.inl hr
          · right
            simp only
            omega
        · intro j hj
          by_cases hjk : j = k
          · subst hjk
            have hcs := hinv.holder_self hw hj
            simp [PC.inCS] at hcs
          · exact Or.inr ⟨hjk, hj⟩
      · simp only [h5, if_false, Option.some.injEq] at h
        subst h
        refine hinv.update hw rfl rfl ?_ ?_ ?_ ?_ ?_ ?_ ?_ ?_ ?_ ?_ ?_
        · simpa [Worker.inRange] using hrg
        · simp [PC.inCS]
        · intro j wj _ hj hcs; exact hinv.excl j wj hj hcs
        · simp
        · intro j wj _ hj hpc; exact hinv.fresh j wj hj hpc
        · simp [Worker.safeDone]
        · simp [Worker.unsafeDone]
        · simp [Worker.unsafeDone]; omega
        · simp
        · intro r hr; exact Or.inl hr
        · intro j hj
          by_cases hjk : j = k
          · subst hjk
            have hcs := hinv.holder_self hw hj
            simp [PC.inCS] at hcs
          · exact Or.inr ⟨hjk, hj⟩
    case delay =>
      simp only [Option.some.injEq] at h
      subst h
      refine hinv.update hw rfl rfl ?_ ?_ ?_ ?_ ?_ ?_ ?_ ?_ ?_ ?_ ?_
      · simp [Worker.inRange] at hrg ⊢; omega
      · simp [PC.inCS]
      · intro j wj _ hj hcs; exact hinv.excl j wj hj hcs
      · simp
      · intro j wj _ hj hpc; exact hinv.fresh j wj hj hpc
      · simp [Worker.safeDone]
      · simp [Worker.unsafeDone]
      · simp [Worker.unsafeDone]; omega
      · simp
      · intro r hr; exact Or.inl hr
      · intro j hj
        by_cases hjk : j = k
        · subst hjk
          have hcs := hinv.holder_self hw hj
          simp [PC.inCS] at hcs
        · exact Or.inr ⟨hjk, hj⟩
    case final =>
      simp only [Option.some.injEq] at h
      subst h
      have hlt := total_unsafeDone_lt s.race k _ hw (by simp [Worker.unsafeDone, Worker.safeDone])
      refine hinv.update hw rfl rfl ?_ ?_ ?_ ?_ ?_ ?_ ?_ ?_ ?_ ?_ ?_
      · simpa [Worker.inRange] using hrg
      · simp [PC.inCS]
      · intro j wj _ hj hcs; exact hinv.excl j wj hj hcs
      · simp
      · intro j wj _ hj hpc; exact hinv.fresh j wj hj hpc
      · simp [Worker.safeDone]
      · simp [Worker.unsafeDone]
      · simp [Worker.unsafeDone]; omega
      · simp
      · intro r hr
        simp only [List.mem_append, List.mem_singleton] at hr
        rcases hr with hr | rfl
        · exact Or.inl hr
        · right
          simp only
          omega
      · intro j hj
        by_cases hjk : j = k
        · subst hjk
          have hcs := hinv.holder_self hw hj
          simp [PC.inCS] at hcs
        · exact Or.inr ⟨hjk, hj⟩
    case exited => simp at h

/-- A schedule preserves the invariant. -/
theorem runSchedule_inv {cs cu : Int} (sched : List Nat) {s s1 : System}
    (hinv : RaceInv cs cu s) (h : runSchedule s sched = some s1) : RaceInv cs cu s1 := by
  induction sched generalizing s with
  | nil =>
    simp only [runSchedule, Option.some.injEq] at h
    subst h
    exact hinv
  | cons k ks ih =>
    simp only [runSchedule] at h
    cases hstep : raceStep s k with
    | none => simp [hstep] at h
    | some s2 =>
      simp only [hstep, Option.bind] at h
      exact ih (raceStep_inv hinv hstep) h

theorem raceStep_length {s s1 : System} {k : Nat} (h : raceStep s k = some s1) :
    s1.race.length = s.race.length := by
  unfold raceStep at h
  cases hw : s.race[k]? with
  | none => simp [hw] at h
  | some w =>
    simp only [hw] at h
    split at h
    all_goals first
      | (simp only [Option.some.injEq] at h; subst h; simp; try (split <;> rfl))
      | (split at h <;> first
          | (simp only [Option.some.injEq] at h; subst h; simp)
          | (split at h <;> simp only [Option.some.injEq] at h <;> subst h <;> simp)
          | simp at h)
      | simp at h

theorem runSchedule_length (sched : List Nat) {s s1 : System}
    (h : runSchedule s sched = some s1) : s1.race.length = s.race.length := by
  induction sched generalizing s with
  | nil =>
    simp only [runSchedule, Option.some.injEq] at h
    subst h
    rfl
  | cons k ks ih =>
    simp only [runSchedule] at h
    cases hstep : raceStep s k with
    | none => simp [hstep] at h
    | some s2 =>
      simp only [hstep, Option.bind] at h
      rw [ih h, raceStep_length hstep]

/-- Creating a task preserves the invariant: a new instance has done nothing yet. -/
theorem xTaskCreatePinnedToCore_inv {cs cu : Int} {s : System} (res : Nat → Bool)
    (entry : Entry) (name : String) (stackDepth priority core : Nat)
    (hinv : RaceInv cs cu s) :
    RaceInv cs cu (xTaskCreatePinnedToCore res entry name stackDepth priority core s).2 := by
  by_cases hc : (res s.calls.length && decide (entry = .raceConditionTask)) = true
  · have hrace : (xTaskCreatePinnedToCore res entry name stackDepth priority core s).2.race
        = s.race ++ [Worker.entry] := by
      simp [xTaskCreatePinnedToCore, hc]
    have hget : ∀ (j : Nat) (w : Worker), (s.race ++ [Worker.entry])[j]? = some w →
        s.race[j]? = some w ∨ w = Worker.entry := by
      intro j w hj
      by_cases hlt : j < s.race.length
      · left
        rwa [List.getElem?_append_left hlt] at hj
      · right
        rw [List.getElem?_append_right (by omega)] at hj
        cases hd : j - s.race.length with
        | zero => simp [hd] at hj; exact hj.symm
        | succ n => simp [hd] at hj
    have htot : ∀ f : Worker → Nat, f Worker.entry = 0 →
        total f (s.race ++ [Worker.entry]) = total f s.race := by
      intro f hf
      simp [total, hf]
    refine ⟨hinv.enabled, ?_, ?_, ?_, ?_, ?_, ?_, ?_, ?_⟩
    · intro j w hj
      rw [hrace] at hj
      rcases hget j w hj with h | rfl
      · exact hinv.range j w h
      · simp [Worker.inRange, Worker.entry]
    · intro j w hj hcs
      rw [hrace] at hj
      rcases hget j w hj with h | rfl
      · exact hinv.excl j w h hcs
      · simp [Worker.entry, PC.inCS] at hcs
    · intro j w hj hpc
      rw [hrace] at hj
      rcases hget j w hj with h | rfl
      · exact hinv.fresh j w h hpc
      · simp [Worker.entry] at hpc
    · rw [hrace, htot _ (by simp [Worker.safeDone, Worker.entry])]
      exact hinv.safeEq
    · rw [hrace, htot _ (by simp [Worker.unsafeDone, Worker.entry])]
      exact hinv.unsafeLe
    · intro j w hj hpc
      rw [hrace] at hj ⊢
      rw [htot _ (by simp [Worker.unsafeDone, Worker.entry])]
      rcases hget j w hj with h | rfl
      · exact hinv.tempLe j w h hpc
      · simp [Worker.entry] at hpc
    · intro r hr
      rw [hrace]
      have := hinv.printedGe r hr
      simp only [List.length_append, List.length_singleton, Nat.cast_add, Nat.cast_one]
      omega
    · intro j hj
      have hh : (xTaskCreatePinnedToCore res entry name stackDepth priority core s).2.holder
          = s.holder := rfl
      rw [hh] at hj
      obtain ⟨w, hw, hcs⟩ := hinv.holderCS j hj
      refine ⟨w, ?_, hcs⟩
      rw [hrace]
      have hlt : j < s.race.length := by
        by_contra hge
        rw [List.getElem?_eq_none (by omega)] at hw
        cases hw
      rw [List.getElem?_append_left hlt]
      exact hw
  · have hrace : (xTaskCreatePinnedToCore res entry name stackDepth priority core s).2.race
        = s.race := by
      simp only [xTaskCreatePinnedToCore, hc]
      simp
    exact ⟨hinv.enabled, by rw [hrace]; exact hinv.range, by rw [hrace]; exact hinv.excl,
      by rw [hrace]; exact hinv.fresh, by rw [hrace]; exact hinv.safeEq,
      by rw [hrace]; exact hinv.unsafeLe, by rw [hrace]; exact hinv.tempLe,
      by rw [hrace]; exact hinv.printedGe, by rw [hrace]; exact hinv.holderCS⟩

/-- The three creations of `simulateRaceCondition`, written out. -/
theorem simulateRaceCondition_eq (res : Nat → Bool) (s : System) :
    simulateRaceCondition res s =
      (xTaskCreatePinnedToCore res .raceConditionTask ("RaceTask_" ++ toString 2) 2048 2 0
        (xTaskCreatePinnedToCore res .raceConditionTask ("RaceTask_" ++ toString 1) 2048 2 1
          (xTaskCreatePinnedToCore res .raceConditionTask ("RaceTask_" ++ toString 0) 2048 2 0
            { s with sim := { s.sim with raceConditionEnabled := true } }).2).2).2 := by
  rfl

/-- Starting a race run preserves the invariant, given it holds once the flag is set. -/
theorem simulateRaceCondition_inv {cs cu : Int} {s : System} (res : Nat → Bool)
    (hinv : RaceInv cs cu { s with sim := { s.sim with raceConditionEnabled := true } }) :
    RaceInv cs cu (simulateRaceCondition res s) := by
  rw [simulateRaceCondition_eq]
  exact xTaskCreatePinnedToCore_inv res _ _ _ _ _
    (xTaskCreatePinnedToCore_inv res _ _ _ _ _
      (xTaskCreatePinnedToCore_inv res _ _ _ _ _ hinv))

/-- Setting the flag again does not disturb the invariant. -/
theorem RaceInv.setFlag {cs cu : Int} {s : System} (hinv : RaceInv cs cu s) :
    RaceInv cs cu { s with sim := { s.sim with raceConditionEnabled := true } } :=
  ⟨rfl, hinv.range, hinv.excl, hinv.fresh, hinv.safeEq, hinv.unsafeLe, hinv.tempLe,
    hinv.printedGe, hinv.holderCS⟩

/-- The state after `initialize()`: no instance, nothing printed, the lock free, both
counters 0. -/
theorem booted_fields (addr : Nat) :
    (booted addr).race = [] ∧ (booted addr).printed = [] ∧ (booted addr).holder = none ∧
      (booted addr).safeCounter = 0 ∧ (booted addr).unsafeCounter = 0 := by
  simp [booted, initializeSimulator, xSemaphoreCreateMutex, xTimerCreate, errorSimulator]

/-- The invariant holds, with both counters at 0, when the first run starts. -/
theorem firstRun_inv (addr : Nat) :
    RaceInv 0 0 (simulateRaceCondition allPass (booted addr)) := by
  apply simulateRaceCondition_inv
  obtain ⟨hr, hp, hh, hs, hu⟩ := booted_fields addr
  refine ⟨rfl, ?_, ?_, ?_, ?_, ?_, ?_, ?_, ?_⟩
  · intro j w hj; simp [hr] at hj
  · intro j w hj; simp [hr] at hj
  · intro j w hj; simp [hr] at hj
  · simp [hr, hs, total]
  · simp [hr, hu, total]
  · intro j w hj; simp [hr] at hj
  · intro r hr1; simp [hp] at hr1
  · intro j hj; simp [hh] at hj

/-- When every instance has exited, each has done all 20 increments of both kinds. -/
theorem total_of_allExited {cs cu : Int} {s : System} (hinv : RaceInv cs cu s)
    (hexit : allExited s = true) :
    total Worker.safeDone s.race = 20 * s.race.length ∧
      total Worker.unsafeDone s.race = 20 * s.race.length := by
  have hall : ∀ w ∈ s.race, w.safeDone = 20 ∧ w.unsafeDone = 20 := by
    intro w hw
    have hpc : w.pc = .exited := by
      have := List.all_eq_true.mp hexit w hw
      simpa using this
    obtain ⟨j, hj⟩ := List.mem_iff_getElem?.mp hw
    have hr := hinv.range j w hj
    rcases w with ⟨pc, i, t, t2⟩
    simp only at hpc
    subst hpc
    simp only [Worker.inRange] at hr
    simp [Worker.safeDone, Worker.unsafeDone, hr]
  have key : ∀ ws : List Worker, (∀ w ∈ ws, w.safeDone = 20 ∧ w.unsafeDone = 20) →
      total Worker.safeDone ws = 20 * ws.length ∧
        total Worker.unsafeDone ws = 20 * ws.length := by
    intro ws
    induction ws with
    | nil => intro _; simp [total]
    | cons a t ih =>
      intro h
      have ha := h a (List.mem_cons_self a t)
      have ht := ih (fun w hw => h w (List.mem_cons_of_mem a hw))
      simp only [total, List.map_cons, List.sum_cons, List.length_cons] at ht ⊢
      omega
  exact key s.race hall

theorem simulateRaceCondition_counters (res : Nat → Bool) (s : System) :
    (simulateRaceCondition res s).safeCounter = s.safeCounter ∧
      (simulateRaceCondition res s).unsafeCounter = s.unsafeCounter := by
  rw [simulateRaceCondition_eq]
  simp [xTaskCreatePinnedToCore]

theorem simulateRaceCondition_allPass_length (s : System) :
    (simulateRaceCondition allPass s).race.length = s.race.length + 3 := by
  rw [simulateRaceCondition_eq]
  simp [xTaskCreatePinnedToCore, allPass]

theorem booted_race (addr : Nat) : (booted addr).race = [] :=
  (booted_fields addr).1

/-- What the invariant gives when every instance has exited. -/
theorem counts_of_allExited {cs cu : Int} {s : System} (hinv : RaceInv cs cu s)
    (hexit : allExited s = true) :
    s.safeCounter = cs + 20 * s.race.length ∧ s.unsafeCounter ≤ cu + 20 * s.race.length := by
  obtain ⟨hS, hU⟩ := total_of_allExited hinv hexit
  have h1 := hinv.safeEq
  have h2 := hinv.unsafeLe
  rw [hS] at h1
  rw [hU] at h2
  push_cast at h1 h2
  exact ⟨h1, h2⟩

/-- With the flag set, a step brings the instance one step closer to its exit. -/
theorem raceStep_remaining {cs cu : Int} {s s1 : System} {k : Nat}
    (hinv : RaceInv cs cu s) (h : raceStep s k = some s1) :
    total Worker.remaining s1.race + 1 = total Worker.remaining s.race := by
  unfold raceStep at h
  cases hw : s.race[k]? with
  | none => simp [hw] at h
  | some w =>
    have hen := hinv.enabled
    have hrg := hinv.range k w hw
    rcases w with ⟨pc, i, t, t2⟩
    simp only [hw] at h
    cases pc
    case loopTest =>
      simp only [hen, if_true] at h
      by_cases hi : i < 20
      · simp only [hi, if_true, Option.some.injEq] at h
        subst h
        have ht := total_set Worker.remaining s.race k _
          ({ pc := PC.readUnsafe, i := i, temp := t, temp2 := t2 } : Worker) hw
        simp only [Worker.remaining, Worker.inRange] at ht hrg ⊢
        omega
      · simp only [hi, if_false, Option.some.injEq] at h
        subst h
        have ht := total_set Worker.remaining s.race k _
          ({ pc := PC.final, i := i, temp := t, temp2 := t2 } : Worker) hw
        simp only [Worker.remaining, Worker.inRange] at ht hrg ⊢
        omega
    case readUnsafe =>
      simp only [Option.some.injEq] at h
      subst h
      have ht := total_set Worker.remaining s.race k _
        ({ pc := PC.writeUnsafe, i := i, temp := s.unsafeCounter, temp2 := t2 } : Worker) hw
      simp only [Worker.remaining, Worker.inRange] at ht hrg ⊢
      omega
    case writeUnsafe =>
      simp only [Option.some.injEq] at h
      subst h
      have ht := total_set Worker.remaining s.race k _
        ({ pc := PC.take, i := i, temp := t, temp2 := t2 } : Worker) hw
      simp only [Worker.remaining, Worker.inRange] at ht hrg ⊢
      omega
    case take =>
      cases hh : s.holder with
      | some x => simp [hh] at h
      | none =>
        simp only [hh, Option.some.injEq] at h
        subst h
        have ht := total_set Worker.remaining s.race k _
          ({ pc := PC.readSafe, i := i, temp := t, temp2 := t2 } : Worker) hw
        simp only [Worker.remaining, Worker.inRange] at ht hrg ⊢
        omega
    case readSafe =>
      simp only [Option.some.injEq] at h
      subst h
      have ht := total_set Worker.remaining s.race k _
        ({ pc := PC.writeSafe, i := i, temp := t, temp2 := s.safeCounter } : Worker) hw
      simp only [Worker.remaining, Worker.inRange] at ht hrg ⊢
      omega
    case writeSafe =>
      simp only [Option.some.injEq] at h
      subst h
      have ht := total_set Worker.remaining s.race k _
        ({ pc := PC.give, i := i, temp := t, temp2 := t2 } : Worker) hw
      simp only [Worker.remaining, Worker.inRange] at ht hrg ⊢
      omega
    case give =>
      simp only [Option.some.injEq] at h
      subst h
      have ht := total_set Worker.remaining s.race k _
        ({ pc := PC.report, i := i, temp := t, temp2 := t2 } : Worker) hw
      simp only [Worker.remaining, Worker.inRange] at ht hrg ⊢
      omega
    case report =>
      by_cases h5 : i % 5 = 0
      · simp only [h5, if_true, Option.some.injEq] at h
        subst h
        have ht := total_set Worker.remaining s.race k _
          ({ pc := PC.delay, i := i, temp := t, temp2 := t2 } : Worker) hw
        simp only [Worker.remaining, Worker.inRange] at ht hrg ⊢
        omega
      · simp only [h5, if_false, Option.some.injEq] at h
        subst h
        have ht := total_set Worker.remaining s.race k _
          ({ pc := PC.delay, i := i, temp := t, temp2 := t2 } : Worker) hw
        simp only [Worker.remaining, Worker.inRange] at ht hrg ⊢
        omega
    case delay =>
      simp only [Option.some.injEq] at h
      subst h
      have ht := total_set Worker.remaining s.race k _
        ({ pc := PC.loopTest, i := i + 1, temp := t, temp2 := t2 } : Worker) hw
      simp only [Worker.remaining, Worker.inRange] at ht hrg ⊢
      omega
    case final =>
      simp only [Option.some.injEq] at h
      subst h
      have ht := total_set Worker.remaining s.race k _
        ({ pc := PC.exited, i := i, temp := t, temp2 := t2 } : Worker) hw
      simp only [Worker.remaining, Worker.inRange] at ht hrg ⊢
      omega
    case exited => simp at h

/-- A schedule is as long as the number of steps it takes off the instances. -/
theorem runSchedule_remaining {cs cu : Int} (sched : List Nat) {s s1 : System}
    (hinv : RaceInv cs cu s) (h : runSchedule s sched = some s1) :
    total Worker.remaining s1.race + sched.length = total Worker.remaining s.race := by
  induction sched generalizing s with
  | nil =>
    simp only [runSchedule, Option.some.injEq] at h
    subst h
    rfl
  | cons k ks ih =>
    simp only [runSchedule] at h
    cases hstep : raceStep s k with
    | none => simp [hstep] at h
    | some s2 =>
      simp only [hstep, Option.bind] at h
      have h1 := ih (raceStep_inv hinv hstep) h
      have h2 := raceStep_remaining hinv hstep
      simp only [List.length_cons]
      omega

/-- An instance that is not blocked in its take and has not exited can step. -/
theorem raceStep_isSome_of_pc {s : System} {k : Nat} {w : Worker}
    (hw : s.race[k]? = some w) (hpc : w.pc ≠ .exited)
    (htake : w.pc = .take → s.holder = none) : (raceStep s k).isSome = true := by
  unfold raceStep
  rcases w with ⟨pc, i, t, t2⟩
  simp only [hw]
  cases pc
  case loopTest => simp only []; split <;> (try split) <;> rfl
  case take => simp only [htake rfl]; rfl
  case exited => exact absurd rfl hpc
  all_goals rfl

/-- Progress: while some instance has not exited, some instance can step; if the one
that has not exited waits for the lock, its holder can. -/
theorem race_progress {cs cu : Int} {s : System} (hinv : RaceInv cs cu s)
    (hlive : allExited s = false) : ∃ k, (raceStep s k).isSome = true := by
  have hex : ∃ w ∈ s.race, w.pc ≠ .exited := by
    by_contra hno
    have hall : allExited s = true := by
      apply List.all_eq_true.mpr
      intro w hw
      by_contra hpc
      exact hno ⟨w, hw, by simpa using hpc⟩
    rw [hall] at hlive
    cases hlive
  obtain ⟨w, hmem, hpc⟩ := hex
  obtain ⟨j, hj⟩ := List.mem_iff_getElem?.mp hmem
  cases hh : s.holder with
  | none => exact ⟨j, raceStep_isSome_of_pc hj hpc (fun _ => hh)⟩
  | some k =>
    obtain ⟨wk, hwk, hcs⟩ := hinv.holderCS k hh
    refine ⟨k, raceStep_isSome_of_pc hwk ?_ ?_⟩
    · intro h
      rw [h] at hcs
      simp [PC.inCS] at hcs
    · intro h
      rw [h] at hcs
      simp [PC.inCS] at hcs

theorem firstRun_race (addr : Nat) :
    (simulateRaceCondition allPass (booted addr)).race =
      [Worker.entry, Worker.entry, Worker.entry] := by
  rw [simulateRaceCondition_eq]
  simp [xTaskCreatePinnedToCore, allPass, booted_race]

/-! ## The race scenario: claims -/

set_option maxRecDepth 1000000

/-- C1: in the first race run (both counters 0, the lock free, the three instances
created by `simulateRaceCondition`), whatever the interleaving, once the three instances
have exited `safeCounter` is 60 and `unsafeCounter` is at most 60. Every interleaving
gets there: it has at most 3 * 182 steps, and while an instance has not exited some
instance can step. -/
theorem race_first_run_counts (addr : Nat) (sched : List Nat) (s : System)
    (hrun : runSchedule (simulateRaceCondition allPass (booted addr)) sched = some s) :
    (allExited s = true → s.race.length = 3 ∧ s.safeCounter = 60 ∧ s.unsafeCounter ≤ 60) ∧
      sched.length ≤ 3 * 182 ∧
      (allExited s = false → ∃ k, (raceStep s k).isSome = true) := by
  have hinv := runSchedule_inv sched (firstRun_inv addr) hrun
  refine ⟨?_, ?_, race_progress hinv⟩
  · intro hexit
    have hlen : s.race.length = 3 := by
      rw [runSchedule_length sched hrun, simulateRaceCondition_allPass_length, booted_race]
      rfl
    obtain ⟨h1, h2⟩ := counts_of_allExited hinv hexit
    rw [hlen] at h1 h2
    norm_num at h1 h2
    exact ⟨hlen, h1, h2⟩
  · have h := runSchedule_remaining sched (firstRun_inv addr) hrun
    rw [firstRun_race] at h
    simp only [total, Worker.remaining, Worker.entry, List.map_cons, List.map_nil,
      List.sum_cons, List.sum_nil] at h
    omega

/-- Witness of C1: the schedule in which the three instances run one after the other. -/
theorem race_first_run_counts_witness :
    runSchedule (simulateRaceCondition allPass (booted 1073470000)) (sequentialSchedule 0)
        = some (stateAfter (simulateRaceCondition allPass (booted 1073470000))
            (sequentialSchedule 0)) ∧
      allExited (stateAfter (simulateRaceCondition allPass (booted 1073470000))
        (sequentialSchedule 0)) = true ∧
      (stateAfter (simulateRaceCondition allPass (booted 1073470000))
        (sequentialSchedule 0)).safeCounter = 60 :=
  ⟨by decide, by decide,
    ((race_first_run_counts 1073470000 (sequentialSchedule 0) _ (by decide)).1
      (by decide)).2.1⟩

/-- C2, as the code has it: the counters are statics that nothing resets, so a race run
started after a complete first run starts with `safeCounter` at 60, not 0, and ends with
`safeCounter` at 120, the first run's 60 plus its own 60, and `unsafeCounter` at most
120. -/
theorem race_second_run_counts (addr : Nat) (sched1 sched2 : List Nat) (s1 s2 : System)
    (hrun1 : runSchedule (simulateRaceCondition allPass (booted addr)) sched1 = some s1)
    (hexit1 : allExited s1 = true)
    (hrun2 : runSchedule (simulateRaceCondition allPass s1) sched2 = some s2)
    (hexit2 : allExited s2 = true) :
    (simulateRaceCondition allPass s1).safeCounter = 60 ∧
      s2.safeCounter = 120 ∧ s2.safeCounter = s1.safeCounter + 60 ∧
      s2.unsafeCounter ≤ 120 := by
  have hinv1 := runSchedule_inv sched1 (firstRun_inv addr) hrun1
  have hlen1 : s1.race.length = 3 := by
    rw [runSchedule_length sched1 hrun1, simulateRaceCondition_allPass_length, booted_race]
    rfl
  obtain ⟨h1, _⟩ := counts_of_allExited hinv1 hexit1
  rw [hlen1] at h1
  norm_num at h1
  have hinv2 := runSchedule_inv sched2 (simulateRaceCondition_inv allPass hinv1.setFlag) hrun2
  have hlen2 : s2.race.length = 6 := by
    rw [runSchedule_length sched2 hrun2, simulateRaceCondition_allPass_length, hlen1]
  obtain ⟨h2, h3⟩ := counts_of_allExited hinv2 hexit2
  rw [hlen2] at h2 h3
  norm_num at h2 h3
  refine ⟨?_, h2, ?_, h3⟩
  · rw [(simulateRaceCondition_counters allPass s1).1, h1]
  · rw [h1, h2]
    rfl

/-- Witness of C2 as amended: two runs, each with its three instances one after the
other. -/
theorem race_second_run_counts_witness :
    runSchedule (simulateRaceCondition allPass (booted 1073470000)) (sequentialSchedule 0)
        = some (stateAfter (simulateRaceCondition allPass (booted 1073470000))
            (sequentialSchedule 0)) ∧
      runSchedule
        (simulateRaceCondition allPass
          (stateAfter (simulateRaceCondition allPass (booted 1073470000))
            (sequentialSchedule 0)))
        (sequentialSchedule 3)
        = some (stateAfter
            (simulateRaceCondition allPass
              (stateAfter (simulateRaceCondition allPass (booted 1073470000))
                (sequentialSchedule 0)))
            (sequentialSchedule 3)) ∧
      (stateAfter
          (simulateRaceCondition allPass
            (stateAfter (simulateRaceCondition allPass (booted 1073470000))
              (sequentialSchedule 0)))
          (sequentialSchedule 3)).safeCounter = 120 :=
  ⟨by decide, by decide,
    (race_second_run_counts 1073470000 (sequentialSchedule 0) (sequentialSchedule 3)
      (stateAfter (simulateRaceCondition allPass (booted 1073470000)) (sequentialSchedule 0))
      (stateAfter
        (simulateRaceCondition allPass
          (stateAfter (simulateRaceCondition allPass (booted 1073470000))
            (sequentialSchedule 0)))
        (sequentialSchedule 3))
      (by decide) (by decide) (by decide) (by decide)).2.1⟩

/-- Counterexample to C2: after a complete first run, a second complete run ends with
`safeCounter` at 120, and it started with `safeCounter` at 60. -/
theorem race_second_run_not_reset :
    allExited (stateAfter (simulateRaceCondition allPass (booted 0)) (sequentialSchedule 0))
        = true ∧
      (simulateRaceCondition allPass
        (stateAfter (simulateRaceCondition allPass (booted 0))
          (sequentialSchedule 0))).safeCounter = 60 ∧
      (runSchedule
        (simulateRaceCondition allPass
          (stateAfter (simulateRaceCondition allPass (booted 0)) (sequentialSchedule 0)))
        (sequentialSchedule 3)).map (fun s => (allExited s, s.safeCounter))
        = some (true, 120) ∧
      (120 : Int) ≠ 60 := by
  decide

/-- C8, as the code has it: an instance increments `unsafeCounter` before `safeCounter`,
so in every reachable state of the first run `safeCounter - unsafeCounter` is at least
-3, every printed difference is at least -2, and the difference is non-negative once the
three instances have exited. -/
theorem race_difference_bounds (addr : Nat) (sched : List Nat) (s : System)
    (hrun : runSchedule (simulateRaceCondition allPass (booted addr)) sched = some s) :
    -3 ≤ s.safeCounter - s.unsafeCounter ∧
      (∀ r ∈ s.printed, -2 ≤ r.difference) ∧
      (allExited s = true → 0 ≤ s.safeCounter - s.unsafeCounter) := by
  have hinv := runSchedule_inv sched (firstRun_inv addr) hrun
  have hlen : s.race.length = 3 := by
    rw [runSchedule_length sched hrun, simulateRaceCondition_allPass_length, booted_race]
    rfl
  refine ⟨?_, ?_, ?_⟩
  · have h1 := hinv.safeEq
    have h2 := hinv.unsafeLe
    have h3 := total_unsafeDone_le s.race
    rw [hlen] at h3
    omega
  · intro r hr
    have := hinv.printedGe r hr
    rw [hlen] at this
    push_cast at this
    omega
  · intro hexit
    obtain ⟨h1, h2⟩ := counts_of_allExited hinv hexit
    omega

/-- Witness of C8 as amended: the state in which each instance has made its first unsafe
increment and none a safe one. -/
theorem race_difference_bounds_witness :
    runSchedule (simulateRaceCondition allPass (booted 1073470000)) [0, 0, 0, 1, 1, 1, 2, 2, 2]
        = some (stateAfter (simulateRaceCondition allPass (booted 1073470000))
            [0, 0, 0, 1, 1, 1, 2, 2, 2]) ∧
      (stateAfter (simulateRaceCondition allPass (booted 1073470000))
          [0, 0, 0, 1, 1, 1, 2, 2, 2]).safeCounter -
        (stateAfter (simulateRaceCondition allPass (booted 1073470000))
          [0, 0, 0, 1, 1, 1, 2, 2, 2]).unsafeCounter = -3 ∧
      -3 ≤ (stateAfter (simulateRaceCondition allPass (booted 1073470000))
          [0, 0, 0, 1, 1, 1, 2, 2, 2]).safeCounter -
        (stateAfter (simulateRaceCondition allPass (booted 1073470000))
          [0, 0, 0, 1, 1, 1, 2, 2, 2]).unsafeCounter :=
  ⟨by decide, by decide,
    (race_difference_bounds 1073470000 [0, 0, 0, 1, 1, 1, 2, 2, 2] _ (by decide)).1⟩

/-- Counterexample to C8: instance 0 reports after instance 1 has made an unsafe
increment and no safe one; the state has `safeCounter - unsafeCounter = -1` and the
line printed as `Differences` is -1. -/
theorem race_difference_negative :
    (runSchedule (simulateRaceCondition allPass (booted 0))
        [0, 0, 0, 1, 1, 1, 0, 0, 0, 0, 0]).map
      (fun s => (s.safeCounter, s.unsafeCounter, s.safeCounter - s.unsafeCounter,
        s.printed.map fun r => r.difference))
      = some (1, 2, -1, [-1]) ∧
    ¬ ((0 : Int) ≤ -1) := by
  decide

/-! ## Locks held at exit -/

/-- The loop of `raceConditionTask` leaves the held locks and the misuse flag as it
found them, whatever the outcomes of its takes. -/
theorem runLocks_raceLoop (outcome : Nat → Bool) (clock : Nat → Int) (enabled : Bool)
    (n i : Nat) (l : Locks) :
    (runLocks outcome clock
        (forFrom
          (fun _ k =>
            if enabled then
              Prog.vTaskDelay 1 <|
              Prog.xSemaphoreTake .xMutex none fun got =>
                if got then
                  Prog.vTaskDelay 1 <|
                  Prog.xSemaphoreGive .xMutex <|
                  Prog.vTaskDelay 10 k
                else
                  Prog.vTaskDelay 10 k
            else
              Prog.vTaskDelay 10 k)
          .vTaskDelete n i) l).held = l.held ∧
    (runLocks outcome clock
        (forFrom
          (fun _ k =>
            if enabled then
              Prog.vTaskDelay 1 <|
              Prog.xSemaphoreTake .xMutex none fun got =>
                if got then
                  Prog.vTaskDelay 1 <|
                  Prog.xSemaphoreGive .xMutex <|
                  Prog.vTaskDelay 10 k
                else
                  Prog.vTaskDelay 10 k
            else
              Prog.vTaskDelay 10 k)
          .vTaskDelete n i) l).badGive = l.badGive := by
  induction n generalizing i l with
  | zero => simp [forFrom, runLocks]
  | succ n ih =>
    cases enabled with
    | false =>
      simp only [forFrom, Bool.false_eq_true, if_false, runLocks]
      exact ih (i + 1) l
    | true =>
      simp only [forFrom, if_true, runLocks]
      cases ho : outcome l.takes with
      | false =>
        simp only [Bool.false_eq_true, if_false, runLocks]
        have := ih (i + 1) { l with takes := l.takes + 1 }
        simpa using this
      | true =>
        simp only [if_true, runLocks]
        have := ih (i + 1)
          { held := (Mutex.xMutex :: l.held).erase Mutex.xMutex
            gave := l.gave ++ [Mutex.xMutex]
            badGive := l.badGive || !((Mutex.xMutex :: l.held).contains Mutex.xMutex)
            takes := l.takes + 1
            reads := l.reads }
        simpa using this

/-- C4: whatever the outcomes of its `xSemaphoreTake` calls, each of the five task
bodies that take a lock reaches `vTaskDelete(NULL)` holding no lock and has only given
locks it held; when the second take of `deadlockTask1` (`deadlockTask2`) fails after the
first succeeded, the one give it makes is of `xMutexA` (`xMutexB`). -/
theorem no_lock_held_at_exit (outcome : Nat → Bool) (clock : Nat → Int) (enabled : Bool) :
    (∀ p ∈ [raceConditionTask enabled, deadlockTask1, deadlockTask2, lowPriorityTask,
        highPriorityTask],
      (runLocks outcome clock p Locks.start).held = [] ∧
        (runLocks outcome clock p Locks.start).badGive = false) ∧
    (outcome 0 = true → outcome 1 = false →
      (runLocks outcome clock deadlockTask1 Locks.start).gave = [Mutex.xMutexA]) ∧
    (outcome 0 = true → outcome 1 = false →
      (runLocks outcome clock deadlockTask2 Locks.start).gave = [Mutex.xMutexB]) := by
  refine ⟨?_, ?_, ?_⟩
  · intro p hp
    simp only [List.mem_cons, List.mem_singleton, List.not_mem_nil, or_false] at hp
    rcases hp with rfl | rfl | rfl | rfl | rfl
    · exact runLocks_raceLoop outcome clock enabled 20 0 Locks.start
    · cases h0 : outcome 0 <;> cases h1 : outcome 1 <;>
        simp [deadlockTask1, runLocks, Locks.start, h0, h1]
    · cases h0 : outcome 0 <;> cases h1 : outcome 1 <;>
        simp [deadlockTask2, runLocks, Locks.start, h0, h1]
    · cases h0 : outcome 0 <;>
        simp [lowPriorityTask, forLoop, forFrom, runLocks, Locks.start, h0]
    · cases h0 : outcome 0 <;>
        simp [highPriorityTask, runLocks, Locks.start, h0]
  · intro h0 h1
    simp [deadlockTask1, runLocks, Locks.start, h0, h1]
  · intro h0 h1
    simp [deadlockTask2, runLocks, Locks.start, h0, h1]

/-! ## The timed scenarios -/

theorem boot_simulatePriorityInversion (addr : Nat) :
    boot (simulatePriorityInversion allPass (booted addr)).tasks =
      boot (simulatePriorityInversion allPass (booted 0)).tasks := by
  rfl

/-- C7, as the code has it: in the timed model of the priority-inversion scenario
`lowPriorityTask` (task 0) holds `xMutex` from 0 to 10000, its hold time;
`highPriorityTask` (task 1), created at 500, takes the lock at 10000, and the wait it
prints is 9500 ms: the hold time less the 500 ms by which it was created later. Every
task exits and no move is left. -/
theorem inversion_wait_time (addr : Nat) :
    lockLog (simulate 100 (boot (simulatePriorityInversion allPass (booted addr)).tasks)) =
        [(0, 0, .took .xMutex), (8500, 2, .exited), (10000, 0, .gave .xMutex),
         (10000, 1, .took .xMutex), (10000, 0, .exited), (10100, 1, .gave .xMutex),
         (10100, 1, .exited)] ∧
      printedBy (simulate 100 (boot (simulatePriorityInversion allPass (booted addr)).tasks))
        1 "HighPri: Got mutex after %lld ms (inversion occurred if >1000ms)"
        = [(10000, [9500])] ∧
      ((9500 : Int) = holdTime lowPriorityTask - 500) ∧
      nextEvent (simulate 100 (boot (simulatePriorityInversion allPass (booted addr)).tasks))
        = none := by
  rw [boot_simulatePriorityInversion]
  decide

/-- Counterexample to C7: the wait printed by `highPriorityTask` in the timed model is
9500 ms, below the 10000 ms for which `lowPriorityTask` holds the lock. -/
theorem inversion_wait_below_hold :
    printedBy (simulate 100 (boot (simulatePriorityInversion allPass (booted 0)).tasks)) 1
        "HighPri: Got mutex after %lld ms (inversion occurred if >1000ms)"
        = [(10000, [9500])] ∧
      holdTime lowPriorityTask = 10 * 1000 ∧
      ¬ ((holdTime lowPriorityTask : Int) ≤ 9500) := by
  decide

/-! ## Creation of locks and tasks -/

/-- C5, evaluated: `initialize()` creates `xMutex` and leaves `xMutexA` and `xMutexB` as
they were, which for the global object is null; `simulateDeadlock` does not create them
either, so the tasks it creates take null handles. -/
theorem initialize_creates_only_xMutex (addr : Nat) (res : Nat → Bool) (s : System) :
    (booted addr).sim.xMutex = some 1 ∧
      (booted addr).sim.xMutexA = none ∧
      (booted addr).sim.xMutexB = none ∧
      (initializeSimulator s).sim.xMutexA = s.sim.xMutexA ∧
      (initializeSimulator s).sim.xMutexB = s.sim.xMutexB ∧
      (simulateDeadlock res (booted addr)).sim.xMutexA = none ∧
      (simulateDeadlock res (booted addr)).sim.xMutexB = none := by
  simp [booted, initializeSimulator, xSemaphoreCreateMutex, xTimerCreate, errorSimulator,
    simulateDeadlock, xTaskCreatePinnedToCore]

/-- C6, as the code has it: the result of `xTaskCreatePinnedToCore` is discarded, so each
scenario operation makes all its creation calls (3, 2 and 3) whatever their results, the
same calls as when all pass, and leaves the object's fields as when all pass. -/
theorem spawn_results_ignored (res : Nat → Bool) (s : System) :
    ((simulateRaceCondition res s).calls.length = s.calls.length + 3 ∧
      (simulateRaceCondition res s).calls = (simulateRaceCondition allPass s).calls ∧
      (simulateRaceCondition res s).sim = (simulateRaceCondition allPass s).sim) ∧
    ((simulateDeadlock res s).calls.length = s.calls.length + 2 ∧
      (simulateDeadlock res s).calls = (simulateDeadlock allPass s).calls ∧
      (simulateDeadlock res s).sim = (simulateDeadlock allPass s).sim) ∧
    ((simulatePriorityInversion res s).calls.length = s.calls.length + 3 ∧
      (simulatePriorityInversion res s).calls = (simulatePriorityInversion allPass s).calls ∧
      (simulatePriorityInversion res s).sim = (simulatePriorityInversion allPass s).sim) := by
  refine ⟨?_, ?_, ?_⟩
  · rw [simulateRaceCondition_eq, simulateRaceCondition_eq]
    simp [xTaskCreatePinnedToCore]
  · simp [simulateDeadlock, xTaskCreatePinnedToCore]
  · simp [simulatePriorityInversion, xTaskCreatePinnedToCore, vTaskDelay]

/-- Counterexample to C6: when the first creation fails, each operation still makes all
its creation calls, not one. -/
theorem spawn_failure_not_aborting :
    failFirst 0 = false ∧
      (simulateRaceCondition failFirst (booted 0)).calls.length = 3 ∧
      (simulateRaceCondition failFirst (booted 0)).tasks.length = 2 ∧
      (simulateDeadlock failFirst (booted 0)).calls.length = 2 ∧
      (simulatePriorityInversion failFirst (booted 0)).calls.length = 3 ∧
      (simulateRaceCondition failFirst (booted 0)).calls.length ≠ 1 := by
  decide

/-- C9: `simulatePriorityInversion` makes exactly three creation calls: `lowPriorityTask`
first, at priority 1; then, 500 ms later, `highPriorityTask` at priority 3 and
`mediumPriorityTask` at priority 2, so that the priorities are ordered low, medium, high.
The 500 ms are less than the 10 x 1000 ms for which `lowPriorityTask` holds the lock, and
the timeout of `highPriorityTask`, 15000 ms, is more. -/
theorem priority_inversion_construction (res : Nat → Bool) (s : System) :
    ∃ lo hi me : TaskCreate,
      (simulatePriorityInversion res s).calls = s.calls ++ [lo, hi, me] ∧
      lo.entry = Entry.lowPriorityTask ∧ hi.entry = Entry.highPriorityTask ∧
      me.entry = Entry.mediumPriorityTask ∧
      lo.priority < me.priority ∧ me.priority < hi.priority ∧
      lo.time = s.clock ∧ hi.time = lo.time + 500 ∧
      holdTime lowPriorityTask = 10 * 1000 ∧
      500 < holdTime lowPriorityTask ∧
      firstTake lowPriorityTask = some (Mutex.xMutex, none) ∧
      firstTake highPriorityTask = some (Mutex.xMutex, some 15000) ∧
      holdTime lowPriorityTask < 15000 := by
  refine ⟨{ entry := .lowPriorityTask, name := "LowPri", stackDepth := 2048,
            param := s.thisAddr, priority := 1, core := 0, time := s.clock },
          { entry := .highPriorityTask, name := "HighPri", stackDepth := 2048,
            param := s.thisAddr, priority := 3, core := 0, time := s.clock + 500 },
          { entry := .mediumPriorityTask, name := "MedPri", stackDepth := 2048,
            param := s.thisAddr, priority := 2, core := 1, time := s.clock + 500 },
          ?_, rfl, rfl, rfl, by simp, by simp, rfl, rfl, by decide, by decide, by decide,
          by decide, by decide⟩
  simp [simulatePriorityInversion, xTaskCreatePinnedToCore, vTaskDelay]

/-! ## `recursiveStackBlower` -/

theorem recursiveStackBlower_calls_aux (n d : Nat) (hn : 100 - d = n) (hd : d < 2 ^ 32) :
    (recursiveStackBlower d).calls = n := by
  induction n generalizing d with
  | zero =>
    rw [recursiveStackBlower]
    have h1 : d % 2 ^ 32 = d := Nat.mod_eq_of_lt hd
    have h2 : ¬ d < 100 := by omega
    simp only [h1, h2, if_false]
  | succ n ih =>
    rw [recursiveStackBlower]
    have h1 : d % 2 ^ 32 = d := Nat.mod_eq_of_lt hd
    have h2 : d < 100 := by omega
    have h3 : (d + 1) % 2 ^ 32 = d + 1 := Nat.mod_eq_of_lt (by omega)
    simp only [h1, h2, if_true, h3]
    rw [ih (d + 1) (by omega) (by omega)]

/-- C10: `recursiveStackBlower` is total; from a 32-bit depth `d` it makes `100 - d`
nested calls when `d < 100` and none when `d >= 100`, where it prints and returns at
once. `simulateStackOverflow` passes it the address of the object, so it recurses only
if that address is below 100. -/
theorem recursiveStackBlower_calls (d : Nat) (hd : d < 2 ^ 32) :
    (d < 100 → (recursiveStackBlower d).calls = 100 - d) ∧
      (100 ≤ d → (recursiveStackBlower d).calls = 0 ∧
        (recursiveStackBlower d).out =
          (if d % 10 = 0 then [BlowerLine.depth d (d * 256 % 2 ^ 32)] else []) ++
            [BlowerLine.completed]) ∧
      (0 < (recursiveStackBlower d).calls ↔ d < 100) ∧
      (∀ (res : Nat → Bool) (s : System), s.thisAddr = d →
        ((simulateStackOverflow res s).calls.drop s.calls.length).map
            (fun c => (c.entry, c.param)) =
          [(Entry.stackHungryTask, d), (Entry.recursiveStackBlower, d)]) := by
  have hcalls := recursiveStackBlower_calls_aux (100 - d) d rfl hd
  refine ⟨fun _ => hcalls, ?_, ?_, ?_⟩
  · intro h
    refine ⟨by rw [hcalls]; omega, ?_⟩
    rw [recursiveStackBlower]
    have h1 : d % 2 ^ 32 = d := Nat.mod_eq_of_lt hd
    have h2 : ¬ d < 100 := by omega
    simp only [h1, h2, if_false]
  · rw [hcalls]
    omega
  · intro res s hs
    simp [simulateStackOverflow, xTaskCreatePinnedToCore, hs]

/-- Witness of C10: from depth 7 there are 93 nested calls. -/
theorem recursiveStackBlower_calls_witness :
    7 < 2 ^ 32 ∧ (recursiveStackBlower 7).calls = 100 - 7 :=
  ⟨by norm_num, (recursiveStackBlower_calls 7 (by norm_num)).1 (by norm_num)⟩

end RTOSErrorSimulator
